import Mathlib

/-!
Shallow embedding of the event-sourced core of the `cq.rs` library service
("blister"): the domain model (`src/server/src/core/model.rs`), the command
dispatcher and write model (`src/server/src/core.rs`), the read model
(`src/server/src/core/model/query.rs`), and the fjall-backed event archive
(`src/server/src/infrastructure/persistence.rs`).

Modelling conventions:
- UUIDs (`uuid::Uuid` wrapped in `UniqueId`) are byte sequences; they are
  modelled as `List Nat`. Freshly minted v4 ids are random, so a theorem
  about persistence may pick any byte sequence for a minted id.
- `HashMap` is modelled as an association list with overwriting insert
  (`ainsert`); `HashSet` as a list with ignore-if-present insert
  (`hsInsert`). Iteration order of hash containers is unspecified in the
  source, and no theorem below depends on it.
- The fjall keyspace partitions are LSM trees: iteration and prefix scans
  enumerate entries in lexicographic byte order of keys. They are modelled
  as association lists kept sorted by key (`partInsert`).
- `Result<T>` becomes `Except Error T`; a `panic!`/`expect` branch of a
  function whose value a claim depends on is modelled by an `Option`
  result, `none` marking the panic.
-/

namespace CqRs

/- `infrastructure.rs`: `pub struct UniqueId(pub Uuid)`; a UUID is 16 raw
bytes, modelled as a byte list. -/
abbrev UniqueId := List Nat

/- `core/model.rs`: role-tagged id wrappers. -/
structure AuthorId where
  uid : UniqueId
deriving DecidableEq, Repr

structure BookId where
  uid : UniqueId
deriving DecidableEq, Repr

structure ReaderId where
  uid : UniqueId
deriving DecidableEq, Repr

/- `core/model.rs`: `pub struct Isbn(pub String)`. -/
structure Isbn where
  code : String
deriving DecidableEq, Repr

/- `core/model.rs`: `BookInfo { isbn, title, author }`. -/
structure BookInfo where
  isbn : Isbn
  title : String
  author : AuthorId
deriving DecidableEq, Repr

/- `core/model.rs`: `AuthorInfo { name }`. -/
structure AuthorInfo where
  name : String
deriving DecidableEq, Repr

/- `core/model.rs`: `ReaderInfo { name, unique_moniker }`. -/
structure ReaderInfo where
  name : String
  unique_moniker : String
deriving DecidableEq, Repr

/- `core/model.rs`: `BookReadInfo { reader_id, book_id, when }`; the
optional `OffsetDateTime` is modelled as an abstract `Nat` timestamp. -/
structure BookReadInfo where
  reader_id : ReaderId
  book_id : BookId
  when : Option Nat
deriving DecidableEq, Repr

/- `core/model.rs`: `enum KeywordTarget { Book(BookId), Author(AuthorId) }`. -/
inductive KeywordTarget where
  | Book (id : BookId)
  | Author (id : AuthorId)
deriving DecidableEq, Repr

/- `core/model.rs`: the five-variant domain event. -/
inductive Event where
  | BookAdded (id : BookId) (info : BookInfo)
  | AuthorAdded (id : AuthorId) (info : AuthorInfo)
  | ReaderAdded (id : ReaderId) (info : ReaderInfo)
  | BookRead (id : ReaderId) (info : BookReadInfo)
  | KeywordAdded (target : KeywordTarget) (keyword : String)
deriving DecidableEq, Repr

/- `core/model.rs`: `enum Command`. -/
inductive Command where
  | AddBook (info : BookInfo)
  | AddAuthor (info : AuthorInfo)
  | AddReader (info : ReaderInfo)
  | AddReadBook (info : BookReadInfo)
  | AddKeyword (keyword : String) (target : KeywordTarget)
deriving DecidableEq, Repr

/- `error.rs`: the error kinds the embedded code paths can produce. -/
inductive Error where
  | UnknownEventType (s : String)
  | JsonSerde (s : String)
  | AggregateParseError (s : String)
  | Generic (s : String)
deriving DecidableEq, Repr

/-! ## Association-list models of `HashMap` / `HashSet` -/

/- `HashMap::get`. -/
def alookup {κ ν : Type} [DecidableEq κ] : List (κ × ν) → κ → Option ν
  | [], _ => none
  | p :: rest, k => if p.1 = k then some p.2 else alookup rest k

/- `HashMap::insert` (overwrite the entry for an existing key). -/
def ainsert {κ ν : Type} [DecidableEq κ] : List (κ × ν) → κ → ν → List (κ × ν)
  | [], k, v => [(k, v)]
  | p :: rest, k, v => if p.1 = k then (k, v) :: rest else p :: ainsert rest k v

/- `HashMap::entry(k).or_default()` followed by a mutation `f`. -/
def adjust {κ ν : Type} [DecidableEq κ] (m : List (κ × ν)) (k : κ) (d : ν) (f : ν → ν) :
    List (κ × ν) :=
  ainsert m k (f ((alookup m k).getD d))

/- `HashSet::insert` (no effect when the element is present). -/
def hsInsert {α : Type} [DecidableEq α] (x : α) (s : List α) : List α :=
  if x ∈ s then s else x :: s

theorem alookup_ainsert {κ ν : Type} [DecidableEq κ] (m : List (κ × ν)) (k k' : κ) (v : ν) :
    alookup (ainsert m k v) k' = if k = k' then some v else alookup m k' := by
  induction m with
  | nil => by_cases h : k = k' <;> simp [ainsert, alookup, h]
  | cons p rest ih =>
    by_cases hp : p.1 = k
    · by_cases h : k = k' <;> simp [ainsert, alookup, hp, h]
    · by_cases h : p.1 = k'
      · have hkk' : ¬ k = k' := fun e => hp (e ▸ h)
        have hk'k : ¬ k' = k := fun e => hkk' e.symm
        simp [ainsert, alookup, hp, h, hkk', hk'k]
      · simp [ainsert, alookup, hp, h, ih]

/-! ## `core/model.rs`: Keyword validation -/

/- The character class of `KEYWORD_REGEX = [\p{L}-_]+`, read charitably as
the set letter ∪ \x7b '-', '_' \x7d. Two caveats recorded here because the
claims depend on them: (a) in the `regex` crate the pattern as written is a
parse error (a class range must have literal endpoints, and here `-` sits
between `\p{L}` and `_`), so `keyword_regex()`'s
`expect("KEYWORD_REGEX is valid")` panics; the model instead reads the `-`
as literal, which is the most favourable reading for the claim. (b) `\p{L}`
is any Unicode letter; the model uses `Char.isAlpha`, which agrees with it
on every string appearing in a theorem below. -/
def keywordClassChar (c : Char) : Bool :=
  c.isAlpha || c == '-' || c == '_'

/- `keyword_regex().is_match(keyword)`: `Regex::is_match` is unanchored, so
for the pattern `[...]+` it tests whether SOME character of the string is in
the class, not whether all are. -/
def keyword_regex_is_match (s : String) : Bool :=
  s.data.any keywordClassChar

/- `core/model.rs`: `pub struct Keyword(String)`. -/
structure Keyword where
  name : String
deriving DecidableEq, Repr

/- `impl FromStr for Keyword`, `from_str`. -/
def Keyword.from_str (keyword : String) : Except Error Keyword :=
  if keyword_regex_is_match keyword then
    Except.ok (Keyword.mk keyword)
  else
    Except.error (Error.Generic (keyword ++ " is not a valid keyword name"))

/- The predicate the spec claims `from_str` decides: a non-empty string
every character of which is in the class. -/
def keyword_wholly_matches (s : String) : Bool :=
  s.data ≠ [] && s.data.all keywordClassChar

/-- C4: the claim states that `Keyword::from_str(s)` succeeds iff every
character of `s` is a letter, underscore or hyphen (and `s` is non-empty),
and that on `"a b!"` it returns an error. In the source the regex is tested
with an unanchored `is_match`, so any string containing at least one class
character is accepted: `from_str "a b!"` succeeds even though `"a b!"` is
not wholly matched by the class. -/
theorem c4_from_str_accepts_a_b_bang :
    Keyword.from_str "a b!" = Except.ok (Keyword.mk "a b!") ∧
      keyword_wholly_matches "a b!" = false := by
  constructor
  · rfl
  · rfl

/-! ## `core/model.rs`: the `EventDescriptor` impl for `Event` -/

/- The JSON payload (`data` field) of a stored event: the `serde_json`
image of the event-specific payload struct. Round-tripping a payload
struct through `serde_json::to_value` / `from_value` is the identity, so
the payload is carried as a typed value; decoding with the wrong expected
shape models a serde error. -/
inductive EventData where
  | bookInfo (i : BookInfo)
  | authorInfo (i : AuthorInfo)
  | readerInfo (i : ReaderInfo)
  | bookReadInfo (i : BookReadInfo)
  | keywordStr (s : String)
deriving DecidableEq, Repr

/- `infrastructure.rs`: `ExternalRepresentation { id, when, aggregate_id,
what, data }`; `when : SystemTime` is modelled as a `Nat`. -/
structure ExternalRepresentation where
  id : UniqueId
  when : Nat
  aggregate_id : UniqueId
  what : String
  data : EventData
deriving DecidableEq, Repr

/- `core/model.rs`: `KeywordTarget::aggregate_id`. -/
def KeywordTarget.aggregate_id : KeywordTarget → UniqueId
  | KeywordTarget.Book id => id.uid
  | KeywordTarget.Author id => id.uid

/- `core/model.rs`: `Event::name`, the `what` discriminator. -/
def Event.name : Event → String
  | Event.BookAdded .. => "book-added"
  | Event.AuthorAdded .. => "author-added"
  | Event.ReaderAdded .. => "reader-added"
  | Event.BookRead .. => "book-read"
  | Event.KeywordAdded .. => "keyword-added"

/- `impl EventDescriptor for Event`, `external_representation`: every arm
returns `Ok`, with `aggregate_id` drawn from the event's subject id and
`data` the serde image of the payload. -/
def external_representation (e : Event) (id : UniqueId) (when : Nat) :
    Except Error ExternalRepresentation :=
  match e with
  | Event.BookAdded bid info =>
    Except.ok ⟨id, when, bid.uid, e.name, EventData.bookInfo info⟩
  | Event.AuthorAdded aid info =>
    Except.ok ⟨id, when, aid.uid, e.name, EventData.authorInfo info⟩
  | Event.ReaderAdded rid info =>
    Except.ok ⟨id, when, rid.uid, e.name, EventData.readerInfo info⟩
  | Event.BookRead rid info =>
    Except.ok ⟨id, when, rid.uid, e.name, EventData.bookReadInfo info⟩
  | Event.KeywordAdded target keyword =>
    Except.ok ⟨id, when, target.aggregate_id, e.name, EventData.keywordStr keyword⟩

/- `impl EventDescriptor for Event`, `from_external_representation`: the
match on `what` has arms for the four `*-added`/`book-read` discriminators
only; everything else, including `"keyword-added"`, falls through to
`Err(Error::UnknownEventType(..))`. A payload of the wrong shape models the
`serde_json::from_value(..)?` failure. -/
def from_external_representation (r : ExternalRepresentation) : Except Error Event :=
  if r.what = "author-added" then
    match r.data with
    | EventData.authorInfo i => Except.ok (Event.AuthorAdded ⟨r.aggregate_id⟩ i)
    | _ => Except.error (Error.JsonSerde "invalid type")
  else if r.what = "book-added" then
    match r.data with
    | EventData.bookInfo i => Except.ok (Event.BookAdded ⟨r.aggregate_id⟩ i)
    | _ => Except.error (Error.JsonSerde "invalid type")
  else if r.what = "reader-added" then
    match r.data with
    | EventData.readerInfo i => Except.ok (Event.ReaderAdded ⟨r.aggregate_id⟩ i)
    | _ => Except.error (Error.JsonSerde "invalid type")
  else if r.what = "book-read" then
    match r.data with
    | EventData.bookReadInfo i => Except.ok (Event.BookRead ⟨r.aggregate_id⟩ i)
    | _ => Except.error (Error.JsonSerde "invalid type")
  else
    Except.error (Error.UnknownEventType r.what)

/- Serialize-then-deserialize, the composition the replay path applies to
every persisted event. -/
def round_trip (e : Event) (id : UniqueId) (when : Nat) : Except Error Event :=
  (external_representation e id when).bind from_external_representation

theorem round_trip_book_added (bid : BookId) (info : BookInfo) (id : UniqueId) (when : Nat) :
    round_trip (Event.BookAdded bid info) id when = Except.ok (Event.BookAdded bid info) :=
  rfl

theorem round_trip_author_added (aid : AuthorId) (info : AuthorInfo) (id : UniqueId) (when : Nat) :
    round_trip (Event.AuthorAdded aid info) id when = Except.ok (Event.AuthorAdded aid info) :=
  rfl

theorem round_trip_reader_added (rid : ReaderId) (info : ReaderInfo) (id : UniqueId) (when : Nat) :
    round_trip (Event.ReaderAdded rid info) id when = Except.ok (Event.ReaderAdded rid info) :=
  rfl

theorem round_trip_book_read (rid : ReaderId) (info : BookReadInfo) (id : UniqueId) (when : Nat) :
    round_trip (Event.BookRead rid info) id when = Except.ok (Event.BookRead rid info) :=
  rfl

/-- C3: the claim states that for every variant, including `KeywordAdded`,
deserialization inverts serialization, so that a stored `"keyword-added"`
record is reconstructed during replay. The code contradicts it:
`external_representation` writes `what = "keyword-added"`, but
`from_external_representation` has no arm for that discriminator, so the
round trip of every `KeywordAdded` event (any target, keyword, event id and
timestamp) fails with `UnknownEventType "keyword-added"` instead of
succeeding. (The other four variants do round-trip.) -/
theorem c3_keyword_added_fails_round_trip (target : KeywordTarget) (keyword : String)
    (id : UniqueId) (when : Nat) :
    round_trip (Event.KeywordAdded target keyword) id when =
      Except.error (Error.UnknownEventType "keyword-added") := by
  cases target <;> rfl

/-! ## `infrastructure/persistence.rs`: the fjall-backed `EventArchive`

A fjall `PartitionHandle` is an LSM tree: `iter()` and `prefix(..)`
enumerate entries in lexicographic order of their raw key bytes. A
partition is modelled as an association list kept sorted by key, with
`partInsert` the overwriting sorted insert. -/

abbrev Bytes := List Nat

/- Strict lexicographic order on raw key bytes. -/
def bytesLt : Bytes → Bytes → Bool
  | [], [] => false
  | [], _ :: _ => true
  | _ :: _, [] => false
  | a :: as, b :: bs => if a < b then true else if b < a then false else bytesLt as bs

/- Key `p` is a byte-prefix of key `k` (the match `prefix(..)` performs). -/
def keyStartsWith : Bytes → Bytes → Bool
  | [], _ => true
  | _ :: _, [] => false
  | a :: as, b :: bs => a == b && keyStartsWith as bs

/- Insert into a key-sorted partition, overwriting an equal key. -/
def partInsert {ν : Type} (k : Bytes) (v : ν) : List (Bytes × ν) → List (Bytes × ν)
  | [] => [(k, v)]
  | p :: rest =>
    if k = p.1 then (k, v) :: rest
    else if bytesLt k p.1 then (k, v) :: p :: rest
    else p :: partInsert k v rest

/- Point lookup (`PartitionHandle::get`). -/
def partGet {ν : Type} (k : Bytes) : List (Bytes × ν) → Option ν
  | [] => none
  | p :: rest => if p.1 = k then some p.2 else partGet k rest

/- Prefix scan (`PartitionHandle::prefix`): all entries whose key starts
with the given bytes, in key order. -/
def prefixScan {ν : Type} (p : Bytes) (part : List (Bytes × ν)) : List (Bytes × ν) :=
  part.filter (fun kv => keyStartsWith p kv.1)

/- `EventArchiveInner`: the two partitions of the keyspace. The archived
JSON value of the `events` partition round-trips through
`as_json`/`from_slice`, so it is carried as the record itself. -/
structure EventArchiveState where
  events : List (Bytes × ExternalRepresentation)
  aggregates : List (Bytes × Bytes)
deriving Repr

def EventArchiveState.empty : EventArchiveState := ⟨[], []⟩

/- `EventArchiveInner::insert`: one atomic batch writes
`events[event.id] = bytes(event)` and `aggregates[event.aggregate_id] =
event.id`. Note the secondary key is the bare 16-byte aggregate id: a
second event of the same aggregate overwrites the first entry. -/
def EventArchiveState.insert (st : EventArchiveState) (event : ExternalRepresentation) :
    EventArchiveState :=
  { events := partInsert event.id event st.events,
    aggregates := partInsert event.aggregate_id event.id st.aggregates }

/- `EventArchiveInner::find_all` (behind `journal()`): every value of the
`events` partition, in partition iteration order, i.e. ordered by the raw
bytes of the (randomly minted) event id. -/
def EventArchiveState.find_all (st : EventArchiveState) : List ExternalRepresentation :=
  st.events.map (fun kv => kv.2)

/- `collect::<Option<Vec<_>>>()`: all-or-nothing collection. -/
def collectOption {α : Type} : List (Option α) → Option (List α)
  | [] => some []
  | none :: _ => none
  | some x :: rest => (collectOption rest).map (fun xs => x :: xs)

/- `EventArchiveInner::find_aggregate_events`: prefix-scan the secondary
index with the aggregate id, then chase each stored event id into the
primary partition; a dangling pointer is the `panic!("corrupt index")`,
modelled as `none`. -/
def EventArchiveState.find_aggregate_events (st : EventArchiveState) (aggregate_id : Bytes) :
    Option (List ExternalRepresentation) :=
  collectOption ((prefixScan aggregate_id st.aggregates).map (fun kv => partGet kv.2 st.events))

/- `EventStore::persist` for `EventArchive`: serialize with a freshly
minted event id and the current time, then insert. Minted v4 ids are
random bytes, so the id is an explicit argument here. -/
def EventArchiveState.persist (st : EventArchiveState) (e : Event) (event_id : UniqueId)
    (event_time : Nat) : Except Error EventArchiveState :=
  (external_representation e event_id event_time).map st.insert

/- `EventStore::journal` for `EventArchive`. -/
def EventArchiveState.journal (st : EventArchiveState) : List ExternalRepresentation :=
  st.find_all

/- `core.rs`, `EventBus::replay_journal`: reconstruct each journal record
in journal order and broadcast it; the broadcast order is the returned
list order. -/
def replay_journal (st : EventArchiveState) : Except Error (List Event) :=
  (st.journal).mapM from_external_representation

/- Concrete C1 scenario: two authors are persisted in sequence; the id
minted for the second event happens to sort below the id minted for the
first (v4 uuids are random, so this assignment occurs). -/
def c1_event_a : Event := Event.AuthorAdded ⟨[10]⟩ ⟨"A"⟩

def c1_event_b : Event := Event.AuthorAdded ⟨[11]⟩ ⟨"B"⟩

def c1_store : Except Error EventArchiveState :=
  (EventArchiveState.empty.persist c1_event_a [1] 0).bind
    (fun st => st.persist c1_event_b [0] 1)

/-- C1: the claim states that `journal()` returns the persisted records in
exactly their append order and that `replay_journal()` re-broadcasts them
in that order. The code contradicts it: `find_all` iterates the `events`
partition in key order, and the keys are the raw bytes of randomly minted
v4 event ids, which are unrelated to append order. Persisting event A
(minted id `[1]`) and then event B (minted id `[0]`) yields a journal, and
hence a replay broadcast, of `[B, A]` — the reverse of append order. -/
theorem c1_journal_not_append_order :
    c1_store.map (fun st => st.journal.map (fun r => r.id)) = Except.ok [[0], [1]] ∧
      c1_store.map (fun st => st.journal.length) = Except.ok 2 ∧
      c1_store.bind replay_journal = Except.ok [c1_event_b, c1_event_a] ∧
      c1_event_a ≠ c1_event_b :=
  ⟨rfl, rfl, rfl, by decide⟩

/- Concrete C2 scenario: a reader is added and then reads a book; both
events carry the reader's uuid `[7]` as their aggregate id. -/
def c2_reader_added : Event := Event.ReaderAdded ⟨[7]⟩ ⟨"N", "m"⟩

def c2_book_read : Event := Event.BookRead ⟨[7]⟩ ⟨⟨[7]⟩, ⟨[9]⟩, none⟩

def c2_store : Except Error EventArchiveState :=
  (EventArchiveState.empty.persist c2_reader_added [1] 0).bind
    (fun st => st.persist c2_book_read [2] 1)

/-- C2: the claim states that after persisting n events of aggregate `a`,
`findByAggregateId(a)` returns all n records in append order. The code
contradicts it: `insert` writes the secondary index under the bare
aggregate-id key (not `aggregateId ‖ eventId`), so each persist overwrites
the aggregate's single index entry. After persisting two events of
aggregate `[7]` (a `ReaderAdded` and then a `BookRead`), the scan returns
only the most recent record — a singleton, not both records. -/
theorem c2_find_by_aggregate_id_loses_history :
    c2_store.map (fun st => st.events.length) = Except.ok 2 ∧
      c2_store.map
          (fun st => (st.find_aggregate_events [7]).map (fun rs => rs.map (fun r => r.what))) =
        Except.ok (some ["book-read"]) ∧
      c2_store.map (fun st => (st.find_aggregate_events [7]).map (fun rs => rs.length)) =
        Except.ok (some 1) :=
  ⟨rfl, rfl, rfl⟩

/-! ## `core.rs`: `WriteModel` and `CommandDispatcher` -/

/- `core.rs`, `struct WriteModel` (all fields `Default`-initialised). -/
structure WriteModel where
  author_name_ids : List (String × List AuthorId)
  book_title_ids : List (String × List BookId)
  author_ids : List AuthorId
  reader_id_by_moniker : List (String × ReaderId)
  books_read : List (ReaderId × List BookId)
deriving DecidableEq, Repr

def WriteModel.empty : WriteModel := ⟨[], [], [], [], []⟩

/- `core.rs`, `WriteModel::apply`. The source's match has no
`Event::KeywordAdded` arm (the variant exists on `Event`, so the match as
written is non-exhaustive and there is no code to run for it); the model
makes that case a no-op, which is the only reading under which the
dispatcher code compiles, and no emitted-event list below contains one. -/
def WriteModel.apply (wm : WriteModel) (event : Event) : WriteModel :=
  match event with
  | Event.BookAdded id info =>
    { wm with book_title_ids := adjust wm.book_title_ids info.title [] (fun l => l ++ [id]) }
  | Event.AuthorAdded id info =>
    { wm with
      author_name_ids := adjust wm.author_name_ids info.name [] (fun l => l ++ [id]),
      author_ids := hsInsert id wm.author_ids }
  | Event.ReaderAdded id info =>
    { wm with reader_id_by_moniker := ainsert wm.reader_id_by_moniker info.unique_moniker id }
  | Event.BookRead id info =>
    { wm with books_read := adjust wm.books_read id [] (hsInsert info.book_id) }
  | Event.KeywordAdded _ _ => wm

/- `books_read.get(&reader).is_some_and(|books| books.contains(&book))`. -/
def WriteModel.book_read_recorded (wm : WriteModel) (reader : ReaderId) (book : BookId) : Bool :=
  match alookup wm.books_read reader with
  | some books => book ∈ books
  | none => false

/- `core.rs`, `CommandDispatcher::accept`, validating against the given
write-model snapshot. The mutation of the bus is represented by the
returned value: `some e` means the command was accepted and event `e`
emitted, `none` that it was rejected and nothing emitted. `fresh` is the
uuid `UniqueId::fresh()` would mint for this step. The source's match has
no `Command::AddKeyword` arm (non-exhaustive as written); the model
rejects it, emitting nothing, which leaves every claim unaffected. -/
def accept (wm : WriteModel) (fresh : UniqueId) : Command → Option Event
  | Command.AddBook info =>
    if info.author ∈ wm.author_ids then
      some (Event.BookAdded ⟨fresh⟩ info)
    else
      none
  | Command.AddAuthor info => some (Event.AuthorAdded ⟨fresh⟩ info)
  | Command.AddReader info =>
    if alookup wm.reader_id_by_moniker info.unique_moniker = none then
      some (Event.ReaderAdded ⟨fresh⟩ info)
    else
      none
  | Command.AddReadBook info =>
    if wm.book_read_recorded info.reader_id info.book_id then
      none
    else
      some (Event.BookRead info.reader_id info)
  | Command.AddKeyword _ _ => none

/- The sequential processing model the claims fix: each emitted event is
applied to the `WriteModel` before the next command is validated. The
`Nat` component feeds `UniqueId::fresh`: step `n` mints the uuid `[n]`
(mint non-determinism is irrelevant to the claims below). -/
def stepCommand (st : WriteModel × Nat) (c : Command) : (WriteModel × Nat) × List Event :=
  match accept st.1 [st.2] c with
  | some e => ((st.1.apply e, st.2 + 1), [e])
  | none => (st, [])

/- Events emitted by a command sequence processed from state `st`. -/
def runFrom (st : WriteModel × Nat) : List Command → List Event
  | [] => []
  | c :: cs => (stepCommand st c).2 ++ runFrom (stepCommand st c).1 cs

/- Final dispatcher state after a command sequence processed from `st`. -/
def runStateFrom (st : WriteModel × Nat) : List Command → WriteModel × Nat
  | [] => st
  | c :: cs => runStateFrom (stepCommand st c).1 cs

/- Events emitted by a command sequence processed from the empty state. -/
def emittedEvents (cmds : List Command) : List Event :=
  runFrom (WriteModel.empty, 0) cmds

/- Dispatcher state after a command sequence from the empty state. -/
def runState (cmds : List Command) : WriteModel × Nat :=
  runStateFrom (WriteModel.empty, 0) cmds

/- The monikers of the `ReaderAdded` events of an event list, in order. -/
def readerMonikers (evs : List Event) : List String :=
  evs.filterMap (fun e =>
    match e with
    | Event.ReaderAdded _ info => some info.unique_moniker
    | _ => none)

theorem hsInsert_mem {α : Type} [DecidableEq α] (x y : α) (s : List α) :
    x ∈ hsInsert y s ↔ x = y ∨ x ∈ s := by
  by_cases h : y ∈ s
  · simp only [hsInsert, if_pos h]
    constructor
    · exact fun hx => Or.inr hx
    · rintro (rfl | hx)
      · exact h
      · exact hx
  · simp [hsInsert, if_neg h]

theorem readerMonikers_append (a b : List Event) :
    readerMonikers (a ++ b) = readerMonikers a ++ readerMonikers b := by
  simp [readerMonikers]

/- Per-field action of `WriteModel::apply`. -/
theorem apply_reader_id_by_moniker (wm : WriteModel) (e : Event) :
    (wm.apply e).reader_id_by_moniker =
      match e with
      | Event.ReaderAdded id info => ainsert wm.reader_id_by_moniker info.unique_moniker id
      | _ => wm.reader_id_by_moniker := by
  cases e <;> rfl

theorem apply_author_ids (wm : WriteModel) (e : Event) :
    (wm.apply e).author_ids =
      match e with
      | Event.AuthorAdded id _ => hsInsert id wm.author_ids
      | _ => wm.author_ids := by
  cases e <;> rfl

theorem apply_books_read (wm : WriteModel) (e : Event) :
    (wm.apply e).books_read =
      match e with
      | Event.BookRead id info => adjust wm.books_read id [] (hsInsert info.book_id)
      | _ => wm.books_read := by
  cases e <;> rfl

/- Acceptance conditions read off `accept`'s emitted event. -/
theorem accept_reader_added_cond {wm : WriteModel} {f : UniqueId} {c : Command} {id : ReaderId}
    {info : ReaderInfo} (h : accept wm f c = some (Event.ReaderAdded id info)) :
    alookup wm.reader_id_by_moniker info.unique_moniker = none := by
  cases c <;> simp only [accept] at h <;>
    first
    | (split at h <;> simp_all)
    | simp_all

theorem accept_book_added_cond {wm : WriteModel} {f : UniqueId} {c : Command} {id : BookId}
    {info : BookInfo} (h : accept wm f c = some (Event.BookAdded id info)) :
    info.author ∈ wm.author_ids := by
  cases c <;> simp only [accept] at h <;>
    first
    | (split at h <;> simp_all)
    | simp_all

theorem accept_book_read_cond {wm : WriteModel} {f : UniqueId} {c : Command} {id : ReaderId}
    {info : BookReadInfo} (h : accept wm f c = some (Event.BookRead id info)) :
    wm.book_read_recorded info.reader_id info.book_id = false := by
  cases c <;> simp only [accept] at h <;>
    first
    | (split at h <;> simp_all)
    | simp_all

theorem stepCommand_of_accept_none {st : WriteModel × Nat} {c : Command}
    (h : accept st.1 [st.2] c = none) : stepCommand st c = (st, []) := by
  simp [stepCommand, h]

theorem stepCommand_of_accept_some {st : WriteModel × Nat} {c : Command} {e : Event}
    (h : accept st.1 [st.2] c = some e) :
    stepCommand st c = ((st.1.apply e, st.2 + 1), [e]) := by
  simp [stepCommand, h]

/- The invariant behind moniker uniqueness: every moniker of a
`ReaderAdded` event emitted by a run is absent from the moniker map of the
state the run started in, and no two of them coincide. -/
theorem c5_aux (cmds : List Command) : ∀ st : WriteModel × Nat,
    (readerMonikers (runFrom st cmds)).Nodup ∧
      ∀ m ∈ readerMonikers (runFrom st cmds), alookup st.1.reader_id_by_moniker m = none := by
  induction cmds with
  | nil => intro st; constructor <;> simp [runFrom, readerMonikers]
  | cons c cs ih =>
    intro st
    rcases hacc : accept st.1 [st.2] c with _ | e
    · have h : runFrom st (c :: cs) = runFrom st cs := by
        show (stepCommand st c).2 ++ runFrom (stepCommand st c).1 cs = _
        rw [stepCommand_of_accept_none hacc]
        rfl
      rw [h]
      exact ih st
    · have h : runFrom st (c :: cs) = e :: runFrom (st.1.apply e, st.2 + 1) cs := by
        show (stepCommand st c).2 ++ runFrom (stepCommand st c).1 cs = _
        rw [stepCommand_of_accept_some hacc]
        rfl
      rw [h]
      cases e with
      | ReaderAdded id info =>
        have hcond := accept_reader_added_cond hacc
        obtain ⟨hnd, hmap⟩ := ih (st.1.apply (Event.ReaderAdded id info), st.2 + 1)
        have hmap' : ∀ m ∈ readerMonikers (runFrom (st.1.apply (Event.ReaderAdded id info),
            st.2 + 1) cs),
            alookup (ainsert st.1.reader_id_by_moniker info.unique_moniker id) m = none := by
          intro m hm
          have := hmap m hm
          rwa [apply_reader_id_by_moniker] at this
        have hnotin : info.unique_moniker ∉
            readerMonikers (runFrom (st.1.apply (Event.ReaderAdded id info), st.2 + 1) cs) := by
          intro hmem
          have := hmap' _ hmem
          rw [alookup_ainsert] at this
          simp at this
        constructor
        · show (info.unique_moniker :: readerMonikers _).Nodup
          exact List.nodup_cons.mpr ⟨hnotin, hnd⟩
        · intro m hm
          rcases List.mem_cons.mp hm with hm | hm
          · exact hm ▸ hcond
          · have h2 := hmap' m hm
            rw [alookup_ainsert] at h2
            by_cases hmm : info.unique_moniker = m
            · rw [if_pos hmm] at h2
              exact absurd h2 (by simp)
            · rwa [if_neg hmm] at h2
      | BookAdded id info =>
        obtain ⟨hnd, hmap⟩ := ih (st.1.apply (Event.BookAdded id info), st.2 + 1)
        exact ⟨hnd, fun m hm => hmap m hm⟩
      | AuthorAdded id info =>
        obtain ⟨hnd, hmap⟩ := ih (st.1.apply (Event.AuthorAdded id info), st.2 + 1)
        exact ⟨hnd, fun m hm => hmap m hm⟩
      | BookRead id info =>
        obtain ⟨hnd, hmap⟩ := ih (st.1.apply (Event.BookRead id info), st.2 + 1)
        exact ⟨hnd, fun m hm => hmap m hm⟩
      | KeywordAdded target keyword =>
        obtain ⟨hnd, hmap⟩ := ih (st.1.apply (Event.KeywordAdded target keyword), st.2 + 1)
        exact ⟨hnd, fun m hm => hmap m hm⟩

/-- C5: processing any command sequence from the empty state (each emitted
event applied to the `WriteModel` before the next command is validated),
no two emitted `ReaderAdded` events carry the same `unique_moniker`; and an
`AddReader` whose moniker is already bound in `reader_id_by_moniker` is
rejected and emits no event. -/
theorem c5_moniker_uniqueness :
    (∀ cmds : List Command, (readerMonikers (emittedEvents cmds)).Nodup) ∧
      ∀ (wm : WriteModel) (fresh : UniqueId) (info : ReaderInfo),
        alookup wm.reader_id_by_moniker info.unique_moniker ≠ none →
        accept wm fresh (Command.AddReader info) = none := by
  constructor
  · intro cmds
    exact (c5_aux cmds (WriteModel.empty, 0)).1
  · intro wm fresh info h
    simp [accept, h]

/-- C5 witness: a run with two distinct monikers has no duplicate, and in
the state reached after `ReaderAdded` bound moniker `"m"`, a second
`AddReader` with moniker `"m"` is rejected. -/
theorem c5_moniker_uniqueness_witness :
    (readerMonikers (emittedEvents
        [Command.AddReader ⟨"N", "m"⟩, Command.AddReader ⟨"P", "m2"⟩])).Nodup ∧
      accept (WriteModel.apply WriteModel.empty (Event.ReaderAdded ⟨[0]⟩ ⟨"N", "m"⟩)) [1]
        (Command.AddReader ⟨"Q", "m"⟩) = none :=
  ⟨c5_moniker_uniqueness.1 _, c5_moniker_uniqueness.2 _ _ _ (by decide)⟩

/- The invariant behind reference soundness: a `BookAdded` emitted by a
run references an author either already known to the starting write model
or added by an earlier event of the same run. -/
theorem c6_aux (cmds : List Command) : ∀ (st : WriteModel × Nat) (pre post : List Event)
    (bid : BookId) (binfo : BookInfo),
    runFrom st cmds = pre ++ Event.BookAdded bid binfo :: post →
    binfo.author ∈ st.1.author_ids ∨ ∃ ainfo, Event.AuthorAdded binfo.author ainfo ∈ pre := by
  induction cmds with
  | nil =>
    intro st pre post bid binfo h
    simp [runFrom] at h
  | cons c cs ih =>
    intro st pre post bid binfo h
    rcases hacc : accept st.1 [st.2] c with _ | e
    · rw [show runFrom st (c :: cs) = runFrom st cs from by
        show (stepCommand st c).2 ++ _ = _
        rw [stepCommand_of_accept_none hacc]
        rfl] at h
      exact ih st pre post bid binfo h
    · rw [show runFrom st (c :: cs) = e :: runFrom (st.1.apply e, st.2 + 1) cs from by
        show (stepCommand st c).2 ++ _ = _
        rw [stepCommand_of_accept_some hacc]
        rfl] at h
      cases pre with
      | nil =>
        simp only [List.nil_append, List.cons.injEq] at h
        obtain ⟨he, -⟩ := h
        subst he
        exact Or.inl (accept_book_added_cond hacc)
      | cons p pre' =>
        simp only [List.cons_append, List.cons.injEq] at h
        obtain ⟨hep, hrest⟩ := h
        subst hep
        rcases ih (st.1.apply e, st.2 + 1) pre' post bid binfo hrest with hmem | ⟨ainfo, hin⟩
        · cases e with
          | AuthorAdded aid ainfo' =>
            simp only [apply_author_ids] at hmem
            rcases (hsInsert_mem _ _ _).mp hmem with heq | hmem'
            · refine Or.inr ⟨ainfo', ?_⟩
              rw [heq]
              exact List.mem_cons_self _ _
            · exact Or.inl hmem'
          | BookAdded id info =>
            simp only [apply_author_ids] at hmem
            exact Or.inl hmem
          | ReaderAdded id info =>
            simp only [apply_author_ids] at hmem
            exact Or.inl hmem
          | BookRead id info =>
            simp only [apply_author_ids] at hmem
            exact Or.inl hmem
          | KeywordAdded target keyword =>
            simp only [apply_author_ids] at hmem
            exact Or.inl hmem
        · exact Or.inr ⟨ainfo, List.mem_cons_of_mem _ hin⟩

/-- C6: processing any command sequence from the empty state, every
emitted `BookAdded` event's `author` field is the id of an `AuthorAdded`
event emitted earlier in the sequence; and an `AddBook` whose author id is
not in the write model's `author_ids` set is rejected and emits no
event. -/
theorem c6_reference_soundness :
    (∀ (cmds : List Command) (pre post : List Event) (bid : BookId) (binfo : BookInfo),
        emittedEvents cmds = pre ++ Event.BookAdded bid binfo :: post →
        ∃ ainfo, Event.AuthorAdded binfo.author ainfo ∈ pre) ∧
      ∀ (wm : WriteModel) (fresh : UniqueId) (binfo : BookInfo),
        binfo.author ∉ wm.author_ids →
        accept wm fresh (Command.AddBook binfo) = none := by
  constructor
  · intro cmds pre post bid binfo h
    rcases c6_aux cmds (WriteModel.empty, 0) pre post bid binfo h with hmem | hin
    · simp [WriteModel.empty] at hmem
    · exact hin
  · intro wm fresh binfo h
    simp [accept, h]

/-- C6 witness: in the run `AddAuthor "A"; AddBook (author ⟨[0]⟩)` the
emitted `BookAdded` is preceded by the matching `AuthorAdded`, and from the
empty write model an `AddBook` referencing an unknown author is
rejected. -/
theorem c6_reference_soundness_witness :
    (∃ ainfo, Event.AuthorAdded (AuthorId.mk [0]) ainfo ∈
        [Event.AuthorAdded ⟨[0]⟩ ⟨"A"⟩]) ∧
      accept WriteModel.empty [0] (Command.AddBook ⟨⟨"978-0"⟩, "T", ⟨[5]⟩⟩) = none :=
  ⟨c6_reference_soundness.1
      [Command.AddAuthor ⟨"A"⟩, Command.AddBook ⟨⟨"978-0"⟩, "T", ⟨[0]⟩⟩]
      [Event.AuthorAdded ⟨[0]⟩ ⟨"A"⟩] [] ⟨[1]⟩ ⟨⟨"978-0"⟩, "T", ⟨[0]⟩⟩ (by decide),
    c6_reference_soundness.2 _ _ _ (by decide)⟩

/-! ## `core/model/query.rs`: the read model (`IndexSet`) -/

/- `query.rs`, `text` module. -/
def SEARCH_TERM_LENGTH_THRESHOLD : Nat := 1

def isSplitChar (c : Char) : Bool :=
  c == ' ' || c == ',' || c == '.' || c == '-' || c == '(' || c == ')'

/- `str::split(&[' ', ',', '.', '-', '(', ')'])`: cut the character list at
every separator (empty pieces included, as in Rust). -/
def splitOnSeparators (cur : List Char) : List Char → List (List Char)
  | [] => [cur.reverse]
  | c :: cs =>
    if isSplitChar c then cur.reverse :: splitOnSeparators [] cs
    else splitOnSeparators (c :: cur) cs

/- `text::tokenize`: split, keep pieces longer than the threshold. (Rust
compares byte length, the model character length; they agree on every
string a theorem below uses.) -/
def tokenize (phrase : String) : List String :=
  ((splitOnSeparators [] phrase.data).map (fun cs => String.mk cs)).filter
    (fun term => term.length > SEARCH_TERM_LENGTH_THRESHOLD)

/- `text::BookField`, `AuthorField`, `Projection`. -/
inductive BookField where
  | Title (id : BookId)
  | Isbn (id : BookId)
deriving DecidableEq, Repr

inductive AuthorField where
  | Name (id : AuthorId)
deriving DecidableEq, Repr

inductive Projection where
  | Books (f : BookField)
  | Authors (f : AuthorField)
deriving DecidableEq, Repr

/- `text::SearchIndex`. -/
structure SearchIndex where
  term_projections : List (String × List Projection)
deriving DecidableEq, Repr

def SearchIndex.empty : SearchIndex := ⟨[]⟩

def SearchIndex.bind_term (si : SearchIndex) (term : String) (target : Projection) :
    SearchIndex :=
  ⟨adjust si.term_projections term [] (hsInsert target)⟩

def SearchIndex.index_phrase (si : SearchIndex) (phrase : String) (target : Projection) :
    SearchIndex :=
  (tokenize phrase).foldl (fun s tok => s.bind_term tok target) si

/- `SearchIndex::apply`: index ISBN as a whole term, tokenize the title and
the author name; the other events are not indexed. -/
def SearchIndex.apply (si : SearchIndex) (event : Event) : SearchIndex :=
  match event with
  | Event.BookAdded id info =>
    (si.bind_term info.isbn.code (Projection.Books (BookField.Isbn id))).index_phrase
      info.title (Projection.Books (BookField.Title id))
  | Event.AuthorAdded id info =>
    si.index_phrase info.name (Projection.Authors (AuthorField.Name id))
  | Event.ReaderAdded _ _ => si
  | Event.BookRead _ _ => si
  | Event.KeywordAdded _ _ => si

def SearchIndex.lookup (si : SearchIndex) (term : String) : List Projection :=
  (alookup si.term_projections term).getD []

/- `query.rs`, `keywords` module. `KeywordId(u16)`: the wrapped value lives
in `Nat` and the `+= 1` wraps at 2^16 as release-mode `u16` arithmetic
does. -/
structure KeywordId where
  kid : Nat
deriving DecidableEq, Repr

/- `bimap::BiHashMap<String, KeywordId>` as a pair list; `insert` removes
any pair sharing the new left value or the new right value. -/
def biGetRight : List (String × KeywordId) → KeywordId → Option String
  | [], _ => none
  | p :: rest, i => if p.2 = i then some p.1 else biGetRight rest i

def biInsert (keyword : String) (id : KeywordId) (l : List (String × KeywordId)) :
    List (String × KeywordId) :=
  (keyword, id) :: l.filter (fun p => !(decide (p.1 = keyword)) && !(decide (p.2 = id)))

structure KeywordMap where
  next_id : Nat
  inner : List (String × KeywordId)
deriving DecidableEq, Repr

def KeywordMap.empty : KeywordMap := ⟨0, []⟩

/- `KeywordMap::get_or_reserve_id`. -/
def KeywordMap.get_or_reserve_id (m : KeywordMap) (keyword : String) :
    KeywordId × KeywordMap :=
  match alookup m.inner keyword with
  | some id => (id, m)
  | none =>
    (KeywordId.mk m.next_id,
      ⟨(m.next_id + 1) % 65536, biInsert keyword (KeywordId.mk m.next_id) m.inner⟩)

/- `KeywordMap::keyword` (resolve an id back to its string). -/
def KeywordMap.keyword (m : KeywordMap) (id : KeywordId) : Option String :=
  biGetRight m.inner id

/- `keywords::Index`. -/
structure KeywordsIndex where
  keyword_map : KeywordMap
  target_keywords : List (KeywordTarget × List KeywordId)
  keyword_targets : List (KeywordId × List KeywordTarget)
deriving DecidableEq, Repr

def KeywordsIndex.empty : KeywordsIndex := ⟨KeywordMap.empty, [], []⟩

/- `Index::add_keyword_to_target`. -/
def KeywordsIndex.add_keyword_to_target (idx : KeywordsIndex) (keyword : String)
    (target : KeywordTarget) : KeywordsIndex :=
  let r := idx.keyword_map.get_or_reserve_id keyword
  ⟨r.2, adjust idx.target_keywords target [] (hsInsert r.1),
    adjust idx.keyword_targets r.1 [] (hsInsert target)⟩

/- `Index::get_keywords`: resolve each id of the target's set; the
`expect("consistent maps")` panic is modelled by `none`. -/
def KeywordsIndex.get_keywords (idx : KeywordsIndex) (target : KeywordTarget) :
    Option (List String) :=
  match alookup idx.target_keywords target with
  | none => some []
  | some ids => collectOption (ids.map (fun id => idx.keyword_map.keyword id))

/- `query.rs`, `struct IndexSet`. -/
structure IndexSet where
  authors : List (AuthorId × AuthorInfo)
  books : List (BookId × BookInfo)
  readers : List (ReaderId × ReaderInfo)
  reader_by_moniker : List (String × ReaderId)
  books_by_reader_id : List (ReaderId × List BookReadInfo)
  books_by_author_id : List (AuthorId × List BookId)
  texts : SearchIndex
  keywords : KeywordsIndex
deriving DecidableEq, Repr

def IndexSet.empty : IndexSet :=
  ⟨[], [], [], [], [], [], SearchIndex.empty, KeywordsIndex.empty⟩

/- `IndexSet::apply_event`. -/
def IndexSet.apply_event (index : IndexSet) (event : Event) : IndexSet :=
  match event with
  | Event.BookAdded id info =>
    { index with
      books := ainsert index.books id info,
      books_by_author_id :=
        adjust index.books_by_author_id info.author [] (fun l => l ++ [id]) }
  | Event.AuthorAdded id info => { index with authors := ainsert index.authors id info }
  | Event.ReaderAdded id info =>
    { index with
      reader_by_moniker := ainsert index.reader_by_moniker info.unique_moniker id,
      readers := ainsert index.readers id info }
  | Event.BookRead id info =>
    { index with books_by_reader_id := adjust index.books_by_reader_id id [] (hsInsert info) }
  | Event.KeywordAdded target keyword =>
    { index with keywords := index.keywords.add_keyword_to_target keyword target }

/- `IndexSet::apply`: feed the text index, then the entity indices. -/
def IndexSet.apply (index : IndexSet) (event : Event) : IndexSet :=
  IndexSet.apply_event { index with texts := index.texts.apply event } event

/- The `QueryHandler` loop: apply a broadcast event stream in order. -/
def applyAll : List Event → IndexSet → IndexSet
  | [], index => index
  | e :: es, index => applyAll es (index.apply e)

/- `core/model.rs`: `pub struct Book(pub BookId, pub BookInfo)`. -/
structure Book where
  id : BookId
  info : BookInfo
deriving DecidableEq, Repr

/- `query.rs`, `BooksByReader::execute`: resolve every reading record of
the reader; `collect::<Option<Vec<_>>>()` makes the whole result `None` if
any single record fails to resolve, and `unwrap_or_default()` turns that
into the empty vector. -/
def BooksByReader.execute (id : ReaderId) (index : IndexSet) : List Book :=
  match alookup index.books_by_reader_id id with
  | none => []
  | some read_books =>
    match collectOption (read_books.map (fun info =>
        (alookup index.books info.book_id).map (fun bi => Book.mk info.book_id bi))) with
    | none => []
    | some bs => bs

/- `text::SearchHit`. -/
structure SearchHit where
  target : Projection
  source : String
deriving DecidableEq, Repr

/- `text::resolve_projection`. -/
def resolve_projection (target : Projection) (index : IndexSet) : Option SearchHit :=
  let source : Option String :=
    match target with
    | Projection.Books (BookField.Isbn id) =>
      (alookup index.books id).map (fun i => i.isbn.code)
    | Projection.Books (BookField.Title id) =>
      (alookup index.books id).map (fun i => i.title)
    | Projection.Authors (AuthorField.Name id) =>
      (alookup index.authors id).map (fun i => i.name)
  source.map (fun s => SearchHit.mk target s)

/- `text`, `impl IndexSetQuery for SearchQuery`: resolve every hit of the
term; an unresolvable projection is the
`panic!("Text index has data that is not reflected in the field
indices.")`, modelled by `none`. -/
def SearchQuery.execute (search_term : String) (index : IndexSet) : Option (List SearchHit) :=
  collectOption ((index.texts.lookup search_term).map (fun p => resolve_projection p index))

/- Concrete C8 scenario: author α = ⟨[0]⟩ "Alice", book β = ⟨[1]⟩ with isbn
"978-0", title "Tango Romeo", author α, applied in that order to the empty
read model. -/
def c8_alpha : AuthorId := ⟨[0]⟩

def c8_beta : BookId := ⟨[1]⟩

def c8_index : IndexSet :=
  applyAll
    [Event.AuthorAdded c8_alpha ⟨"Alice"⟩,
      Event.BookAdded c8_beta ⟨⟨"978-0"⟩, "Tango Romeo", c8_alpha⟩]
    IndexSet.empty

/-- C8: after applying `AuthorAdded(α, "Alice")` and `BookAdded(β, isbn
"978-0", title "Tango Romeo", α)`, `SearchQuery "Tango"` returns exactly
one hit, projected to the book title of β with source `"Tango Romeo"`;
`SearchQuery "978-0"` returns the ISBN hit of β (the ISBN is bound whole,
not split at the hyphen); and `SearchQuery "Al"` returns no hits. -/
theorem c8_search_scenario :
    SearchQuery.execute "Tango" c8_index =
        some [SearchHit.mk (Projection.Books (BookField.Title c8_beta)) "Tango Romeo"] ∧
      SearchQuery.execute "978-0" c8_index =
        some [SearchHit.mk (Projection.Books (BookField.Isbn c8_beta)) "978-0"] ∧
      SearchQuery.execute "Al" c8_index = some [] := by
  refine ⟨?_, ?_, ?_⟩ <;> decide

/- `collect::<Option<Vec<_>>>()` over a mapped list is `None` as soon as
one element maps to `None`. -/
theorem collectOption_map_eq_none {α β : Type} (f : α → Option β) (l : List α) (x : α)
    (hx : x ∈ l) (hfx : f x = none) : collectOption (l.map f) = none := by
  induction l with
  | nil => cases hx
  | cons a l ih =>
    rcases List.mem_cons.mp hx with rfl | hx'
    · simp [collectOption, hfx]
    · cases hfa : f a with
      | none => simp [collectOption, hfa]
      | some v => simp [collectOption, hfa, ih hx']

/-- C9: whenever the reading-record set of reader `r` holds a record whose
`book_id` has no entry in the `books` map, `BooksByReader(r)` returns the
empty vector — the one unresolvable record suppresses every resolvable
book of that reader. -/
theorem c9_unresolvable_record_suppresses (index : IndexSet) (r : ReaderId)
    (rec : BookReadInfo)
    (hrec : rec ∈ (alookup index.books_by_reader_id r).getD [])
    (hnone : alookup index.books rec.book_id = none) :
    BooksByReader.execute r index = [] := by
  cases hread : alookup index.books_by_reader_id r with
  | none => rw [hread] at hrec; cases hrec
  | some read_books =>
    rw [hread] at hrec
    simp only [Option.getD_some] at hrec
    have hcol : collectOption (read_books.map (fun info =>
        (alookup index.books info.book_id).map (fun bi => Book.mk info.book_id bi))) = none :=
      collectOption_map_eq_none _ _ rec hrec (by rw [hnone]; rfl)
    unfold BooksByReader.execute
    rw [hread]
    simp only [hcol]

/- Concrete C9 scenario: reader `⟨[3]⟩` has two records; the book of the
first is absent from `books`, the book of the second is present. -/
def c9_index : IndexSet :=
  { IndexSet.empty with
    books := [(⟨[9]⟩, ⟨⟨"978-1"⟩, "Resolvable", ⟨[0]⟩⟩)],
    books_by_reader_id :=
      [(⟨[3]⟩, [⟨⟨[3]⟩, ⟨[4]⟩, none⟩, ⟨⟨[3]⟩, ⟨[9]⟩, none⟩])] }

/-- C9 witness: in `c9_index` the reader's record for book `⟨[4]⟩` is
unresolvable while the record for book `⟨[9]⟩` is resolvable, and the query
returns `[]` rather than the partial list. -/
theorem c9_unresolvable_record_suppresses_witness :
    (BookReadInfo.mk ⟨[3]⟩ ⟨[4]⟩ none ∈
        (alookup c9_index.books_by_reader_id ⟨[3]⟩).getD []) ∧
      alookup c9_index.books ⟨[4]⟩ = none ∧
      (alookup c9_index.books ⟨[9]⟩).isSome = true ∧
      BooksByReader.execute ⟨[3]⟩ c9_index = [] :=
  ⟨by decide, by decide, by decide,
    c9_unresolvable_record_suppresses c9_index ⟨[3]⟩ ⟨⟨[3]⟩, ⟨[4]⟩, none⟩
      (by decide) (by decide)⟩

theorem alookup_mem {κ ν : Type} [DecidableEq κ] {l : List (κ × ν)} {k : κ} {v : ν}
    (h : alookup l k = some v) : ∃ p ∈ l, p.1 = k ∧ p.2 = v := by
  induction l with
  | nil => cases h
  | cons p rest ih =>
    by_cases hp : p.1 = k
    · rw [alookup, if_pos hp] at h
      exact ⟨p, List.mem_cons_self _ _, hp, Option.some.inj h⟩
    · rw [alookup, if_neg hp] at h
      obtain ⟨q, hq, hq1, hq2⟩ := ih h
      exact ⟨q, List.mem_cons_of_mem _ hq, hq1, hq2⟩

theorem alookup_none_forall {κ ν : Type} [DecidableEq κ] {l : List (κ × ν)} {k : κ}
    (h : alookup l k = none) : ∀ p ∈ l, p.1 ≠ k := by
  induction l with
  | nil => intro p hp; cases hp
  | cons q rest ih =>
    by_cases hq : q.1 = k
    · rw [alookup, if_pos hq] at h
      cases h
    · rw [alookup, if_neg hq] at h
      intro p hp
      rcases List.mem_cons.mp hp with rfl | hp'
      · exact hq
      · exact ih h p hp'

theorem mem_ainsert {κ ν : Type} [DecidableEq κ] {l : List (κ × ν)} {k : κ} {v : ν}
    {p : κ × ν} (h : p ∈ ainsert l k v) : p = (k, v) ∨ p ∈ l := by
  induction l with
  | nil =>
    rcases List.mem_cons.mp h with h' | h'
    · exact Or.inl h'
    · cases h'
  | cons q rest ih =>
    by_cases hq : q.1 = k
    · rw [ainsert, if_pos hq] at h
      rcases List.mem_cons.mp h with h' | h'
      · exact Or.inl h'
      · exact Or.inr (List.mem_cons_of_mem _ h')
    · rw [ainsert, if_neg hq] at h
      rcases List.mem_cons.mp h with rfl | h'
      · exact Or.inr (List.mem_cons_self _ _)
      · rcases ih h' with h'' | h''
        · exact Or.inl h''
        · exact Or.inr (List.mem_cons_of_mem _ h'')

theorem biGetRight_isSome_iff {l : List (String × KeywordId)} {i : KeywordId} :
    (biGetRight l i).isSome = true ↔ ∃ p ∈ l, p.2 = i := by
  induction l with
  | nil => simp [biGetRight]
  | cons p rest ih =>
    by_cases hp : p.2 = i
    · simp [biGetRight, hp]
    · rw [biGetRight, if_neg hp, ih]
      constructor
      · rintro ⟨q, hq, hq2⟩
        exact ⟨q, List.mem_cons_of_mem _ hq, hq2⟩
      · rintro ⟨q, hq, hq2⟩
        rcases List.mem_cons.mp hq with rfl | hq'
        · exact absurd hq2 hp
        · exact ⟨q, hq', hq2⟩

theorem biGetRight_biInsert_isSome {l : List (String × KeywordId)} {kw : String}
    {id id' : KeywordId} (hleft : alookup l kw = none)
    (h : id' = id ∨ (biGetRight l id').isSome = true) :
    (biGetRight (biInsert kw id l) id').isSome = true := by
  rcases h with rfl | h
  · simp [biInsert, biGetRight]
  · by_cases hid : id' = id
    · subst hid
      simp [biInsert, biGetRight]
    · rcases biGetRight_isSome_iff.mp h with ⟨p, hp, hpi⟩
      apply biGetRight_isSome_iff.mpr
      have h1 : ¬ p.1 = kw := alookup_none_forall hleft p hp
      have h2 : ¬ p.2 = id := by rw [hpi]; exact hid
      exact ⟨p, List.mem_cons.mpr (Or.inr (List.mem_filter.mpr ⟨hp, by simp [h1, h2]⟩)), hpi⟩

/- `get_or_reserve_id` returns an id its new bimap resolves, and keeps
every previously resolvable id resolvable. -/
theorem get_or_reserve_id_spec (m : KeywordMap) (kw : String) :
    (biGetRight (m.get_or_reserve_id kw).2.inner (m.get_or_reserve_id kw).1).isSome = true ∧
      ∀ id', (biGetRight m.inner id').isSome = true →
        (biGetRight (m.get_or_reserve_id kw).2.inner id').isSome = true := by
  cases hl : alookup m.inner kw with
  | some id =>
    constructor
    · rw [show m.get_or_reserve_id kw = (id, m) from by simp [KeywordMap.get_or_reserve_id, hl]]
      obtain ⟨p, hp, -, hp2⟩ := alookup_mem hl
      exact biGetRight_isSome_iff.mpr ⟨p, hp, hp2⟩
    · intro id' h
      rw [show m.get_or_reserve_id kw = (id, m) from by simp [KeywordMap.get_or_reserve_id, hl]]
      exact h
  | none =>
    have hshape : m.get_or_reserve_id kw =
        (KeywordId.mk m.next_id,
          ⟨(m.next_id + 1) % 65536, biInsert kw (KeywordId.mk m.next_id) m.inner⟩) := by
      simp [KeywordMap.get_or_reserve_id, hl]
    constructor
    · rw [hshape]
      exact biGetRight_biInsert_isSome hl (Or.inl rfl)
    · intro id' h
      rw [hshape]
      exact biGetRight_biInsert_isSome hl (Or.inr h)

/- Every keyword id stored in `target_keywords` resolves through the
bidirectional keyword map. -/
def keywordIdsResolvable (kws : KeywordsIndex) : Prop :=
  ∀ p ∈ kws.target_keywords, ∀ id ∈ p.2,
    (biGetRight kws.keyword_map.inner id).isSome = true

theorem add_keyword_resolvable {kws : KeywordsIndex} (hres : keywordIdsResolvable kws)
    (kw : String) (t : KeywordTarget) :
    keywordIdsResolvable (kws.add_keyword_to_target kw t) := by
  obtain ⟨hrid, hpres⟩ := get_or_reserve_id_spec kws.keyword_map kw
  intro p hp id hid
  show (biGetRight (kws.keyword_map.get_or_reserve_id kw).2.inner id).isSome = true
  rcases mem_ainsert hp with rfl | hpm
  · rcases (hsInsert_mem _ _ _).mp hid with rfl | hidold
    · exact hrid
    · cases ht : alookup kws.target_keywords t with
      | none => rw [ht] at hidold; cases hidold
      | some ids =>
        rw [ht] at hidold
        simp only [Option.getD_some] at hidold
        obtain ⟨q, hq, -, hq2⟩ := alookup_mem ht
        exact hpres id (hres q hq id (by rw [hq2]; exact hidold))
  · exact hpres id (hres p hpm id hid)

theorem apply_keywords (index : IndexSet) (e : Event) :
    (index.apply e).keywords =
      match e with
      | Event.KeywordAdded target keyword => index.keywords.add_keyword_to_target keyword target
      | _ => index.keywords := by
  cases e <;> rfl

theorem applyAll_resolvable (evs : List Event) : ∀ index : IndexSet,
    keywordIdsResolvable index.keywords →
    keywordIdsResolvable (applyAll evs index).keywords := by
  induction evs with
  | nil => intro idx h; exact h
  | cons e es ih =>
    intro idx h
    apply ih
    cases e with
    | KeywordAdded t k => exact add_keyword_resolvable h k t
    | BookAdded id info => exact h
    | AuthorAdded id info => exact h
    | ReaderAdded id info => exact h
    | BookRead id info => exact h

theorem collectOption_map_isSome {α β : Type} (f : α → Option β) (l : List α)
    (h : ∀ x ∈ l, (f x).isSome = true) : (collectOption (l.map f)).isSome = true := by
  induction l with
  | nil => rfl
  | cons a rest ih =>
    cases hfa : f a with
    | none =>
      have := h a (List.mem_cons_self _ _)
      rw [hfa] at this
      cases this
    | some v =>
      have hrest := ih (fun x hx => h x (List.mem_cons_of_mem _ hx))
      cases hcol : collectOption (rest.map f) with
      | none => rw [hcol] at hrest; cases hrest
      | some vs => simp [collectOption, hfa, hcol]

/-- C10: for every read model reached by applying a finite event sequence
to the empty `IndexSet`, every `KeywordId` stored in the keyword index's
`target_keywords` sets resolves through the bidirectional keyword map, so
`get_keywords` (the `TargetKeywords` query) always returns a value — its
`expect("consistent maps")` panic branch (modelled by `none`) is
unreachable. -/
theorem c10_target_keywords_never_panics (evs : List Event) (target : KeywordTarget) :
    ((applyAll evs IndexSet.empty).keywords.get_keywords target).isSome = true := by
  have hres : keywordIdsResolvable (applyAll evs IndexSet.empty).keywords :=
    applyAll_resolvable evs IndexSet.empty (fun p hp => by cases hp)
  unfold KeywordsIndex.get_keywords
  cases hl : alookup (applyAll evs IndexSet.empty).keywords.target_keywords target with
  | none => rfl
  | some ids =>
    apply collectOption_map_isSome
    intro id hid
    obtain ⟨p, hp, -, hp2⟩ := alookup_mem hl
    exact hres p hp id (by rw [hp2]; exact hid)

/- Recognizer for a `BookRead` event of the pair (r, b). -/
def isBookReadOf (r : ReaderId) (b : BookId) (e : Event) : Bool :=
  match e with
  | Event.BookRead id info => decide (id = r) && decide (info.book_id = b)
  | _ => false

theorem accept_book_read_inv {wm : WriteModel} {f : UniqueId} {c : Command} {id : ReaderId}
    {info : BookReadInfo} (h : accept wm f c = some (Event.BookRead id info)) :
    c = Command.AddReadBook info ∧ id = info.reader_id ∧
      wm.book_read_recorded info.reader_id info.book_id = false := by
  cases c with
  | AddReadBook i =>
    rw [accept] at h
    split at h
    · cases h
    · rename_i hrec
      have h' := Option.some.inj h
      have h1 : i.reader_id = id := by cases h'; rfl
      have h2 : i = info := by cases h'; rfl
      subst h2
      refine ⟨rfl, h1.symm, ?_⟩
      revert hrec
      cases wm.book_read_recorded i.reader_id i.book_id <;> simp
  | AddBook i => rw [accept] at h; split at h <;> cases h
  | AddAuthor i => cases h
  | AddReader i => rw [accept] at h; split at h <;> cases h
  | AddKeyword k t => cases h

/- How `WriteModel::apply` changes the recorded-pair test. -/
theorem book_read_recorded_apply (wm : WriteModel) (e : Event) (r : ReaderId) (b : BookId) :
    (wm.apply e).book_read_recorded r b =
      match e with
      | Event.BookRead id info =>
        wm.book_read_recorded r b || (decide (id = r) && decide (info.book_id = b))
      | _ => wm.book_read_recorded r b := by
  cases e with
  | BookRead id info =>
    show (match alookup (adjust wm.books_read id [] (hsInsert info.book_id)) r with
          | some books => decide (b ∈ books)
          | none => false) = _
    rw [adjust, alookup_ainsert]
    by_cases hid : id = r
    · rw [if_pos hid]
      show decide (b ∈ hsInsert info.book_id ((alookup wm.books_read id).getD [])) = _
      rw [hid]
      unfold WriteModel.book_read_recorded
      cases hal : alookup wm.books_read r with
      | none => simp [hsInsert_mem, eq_comm]
      | some books => simp [hsInsert_mem, eq_comm, Bool.or_comm]
    · rw [if_neg hid]
      unfold WriteModel.book_read_recorded
      simp [hid]
  | BookAdded id info => rfl
  | AuthorAdded id info => rfl
  | ReaderAdded id info => rfl
  | KeywordAdded target keyword => rfl

/- At most one `BookRead` of a given pair can be emitted, and none at all
once the pair is recorded in the starting write model. -/
theorem c7_aux (cmds : List Command) : ∀ (st : WriteModel × Nat) (r : ReaderId) (b : BookId),
    (st.1.book_read_recorded r b = true →
        (runFrom st cmds).countP (isBookReadOf r b) = 0) ∧
      (runFrom st cmds).countP (isBookReadOf r b) ≤ 1 := by
  induction cmds with
  | nil => intro st r b; constructor <;> simp [runFrom]
  | cons c cs ih =>
    intro st r b
    rcases hacc : accept st.1 [st.2] c with _ | e
    · rw [show runFrom st (c :: cs) = runFrom st cs from by
        show (stepCommand st c).2 ++ _ = _
        rw [stepCommand_of_accept_none hacc]
        rfl]
      exact ih st r b
    · rw [show runFrom st (c :: cs) = e :: runFrom (st.1.apply e, st.2 + 1) cs from by
        show (stepCommand st c).2 ++ _ = _
        rw [stepCommand_of_accept_some hacc]
        rfl]
      rw [List.countP_cons]
      obtain ⟨ihrec, ihle⟩ := ih (st.1.apply e, st.2 + 1) r b
      by_cases hbr : isBookReadOf r b e = true
      · cases e with
        | BookRead id info =>
          obtain ⟨-, hid, hfalse⟩ := accept_book_read_inv hacc
          simp only [isBookReadOf, Bool.and_eq_true, decide_eq_true_eq] at hbr
          obtain ⟨hidr, hbkb⟩ := hbr
          have hrec' : (st.1.apply (Event.BookRead id info)).book_read_recorded r b = true := by
            rw [book_read_recorded_apply]
            simp [hidr, hbkb]
          have h0 := ihrec hrec'
          have hif : isBookReadOf r b (Event.BookRead id info) = true := by
            simp [isBookReadOf, hidr, hbkb]
          constructor
          · intro habs
            rw [hid] at hidr
            rw [hidr, hbkb] at hfalse
            rw [habs] at hfalse
            cases hfalse
          · rw [hif, if_pos rfl, h0]
        | BookAdded id info => simp [isBookReadOf] at hbr
        | AuthorAdded id info => simp [isBookReadOf] at hbr
        | ReaderAdded id info => simp [isBookReadOf] at hbr
        | KeywordAdded t k => simp [isBookReadOf] at hbr
      · rw [Bool.not_eq_true] at hbr
        have hif : (if isBookReadOf r b e = true then 1 else 0) = 0 := by rw [hbr]; rfl
        rw [hif, Nat.add_zero]
        have hpres : st.1.book_read_recorded r b = true →
            (st.1.apply e).book_read_recorded r b = true := by
          intro hst
          rw [book_read_recorded_apply]
          cases e with
          | BookRead id info => simp [hst]
          | BookAdded id info => exact hst
          | AuthorAdded id info => exact hst
          | ReaderAdded id info => exact hst
          | KeywordAdded t k => exact hst
        exact ⟨fun hst => ihrec (hpres hst), ihle⟩

/- A recorded pair in the final state traces back either to the starting
state or to an `AddReadBook` command of the run. -/
theorem c7_state_aux (cmds : List Command) : ∀ (st : WriteModel × Nat) (r : ReaderId)
    (b : BookId),
    (runStateFrom st cmds).1.book_read_recorded r b = true →
    st.1.book_read_recorded r b = true ∨
      ∃ info, Command.AddReadBook info ∈ cmds ∧ info.reader_id = r ∧ info.book_id = b := by
  induction cmds with
  | nil => intro st r b h; exact Or.inl h
  | cons c cs ih =>
    intro st r b h
    rcases hacc : accept st.1 [st.2] c with _ | e
    · rw [show runStateFrom st (c :: cs) = runStateFrom st cs from by
        show runStateFrom (stepCommand st c).1 cs = _
        rw [stepCommand_of_accept_none hacc]] at h
      rcases ih st r b h with h' | ⟨info, hin, hr, hb⟩
      · exact Or.inl h'
      · exact Or.inr ⟨info, List.mem_cons_of_mem _ hin, hr, hb⟩
    · rw [show runStateFrom st (c :: cs) = runStateFrom (st.1.apply e, st.2 + 1) cs from by
        show runStateFrom (stepCommand st c).1 cs = _
        rw [stepCommand_of_accept_some hacc]] at h
      rcases ih (st.1.apply e, st.2 + 1) r b h with h' | ⟨info, hin, hr, hb⟩
      · cases e with
        | BookRead id info =>
          rw [book_read_recorded_apply] at h'
          simp only [Bool.or_eq_true, Bool.and_eq_true, decide_eq_true_eq] at h'
          rcases h' with h' | ⟨hidr, hbkb⟩
          · exact Or.inl h'
          · obtain ⟨hc, hid, -⟩ := accept_book_read_inv hacc
            refine Or.inr ⟨info, ?_, ?_, hbkb⟩
            · rw [hc]; exact List.mem_cons_self _ _
            · rw [← hid]; exact hidr
        | BookAdded id info => exact Or.inl h'
        | AuthorAdded id info => exact Or.inl h'
        | ReaderAdded id info => exact Or.inl h'
        | KeywordAdded t k => exact Or.inl h'
      · exact Or.inr ⟨info, List.mem_cons_of_mem _ hin, hr, hb⟩

/- The reading-record set the read model keeps for a reader. -/
def readRecords (index : IndexSet) (r : ReaderId) : List BookReadInfo :=
  (alookup index.books_by_reader_id r).getD []

theorem apply_books_by_reader_id (index : IndexSet) (e : Event) :
    (index.apply e).books_by_reader_id =
      match e with
      | Event.BookRead id info => adjust index.books_by_reader_id id [] (hsInsert info)
      | _ => index.books_by_reader_id := by
  cases e <;> rfl

theorem countP_hsInsert {α : Type} [DecidableEq α] (p : α → Bool) (x : α) (s : List α) :
    (hsInsert x s).countP p ≤ s.countP p + (if p x then 1 else 0) := by
  by_cases h : x ∈ s
  · rw [hsInsert, if_pos h]
    exact Nat.le_add_right _ _
  · rw [hsInsert, if_neg h, List.countP_cons]

/- Each event adds at most one matching record to a reader's set, and only
a `BookRead` of that very pair does. -/
theorem c7_records_aux (evs : List Event) : ∀ (index : IndexSet) (r : ReaderId) (b : BookId),
    ((readRecords (applyAll evs index) r).countP (fun rec => decide (rec.book_id = b))) ≤
      (readRecords index r).countP (fun rec => decide (rec.book_id = b)) +
        evs.countP (isBookReadOf r b) := by
  induction evs with
  | nil => intro index r b; simp [applyAll]
  | cons e es ih =>
    intro index r b
    have hstep : ((readRecords (index.apply e) r).countP (fun rec => decide (rec.book_id = b))) ≤
        (readRecords index r).countP (fun rec => decide (rec.book_id = b)) +
          (if isBookReadOf r b e = true then 1 else 0) := by
      cases e with
      | BookRead id info =>
        show ((readRecords (index.apply (Event.BookRead id info)) r).countP _) ≤ _
        unfold readRecords
        rw [apply_books_by_reader_id]
        show ((alookup (adjust index.books_by_reader_id id [] (hsInsert info))
            r).getD []).countP _ ≤ _
        rw [adjust, alookup_ainsert]
        by_cases hid : id = r
        · rw [if_pos hid, hid]
          refine Nat.le_trans (countP_hsInsert _ _ _) ?_
          apply Nat.add_le_add_left
          have heq : isBookReadOf r b (Event.BookRead r info) = decide (info.book_id = b) := by
            simp [isBookReadOf]
          rw [heq]
        · rw [if_neg hid]
          exact Nat.le_add_right _ _
      | BookAdded id info => exact Nat.le_add_right _ _
      | AuthorAdded id info => exact Nat.le_add_right _ _
      | ReaderAdded id info => exact Nat.le_add_right _ _
      | KeywordAdded t k => exact Nat.le_add_right _ _
    calc ((readRecords (applyAll (e :: es) index) r).countP (fun rec => decide (rec.book_id = b)))
        ≤ (readRecords (index.apply e) r).countP (fun rec => decide (rec.book_id = b)) +
            es.countP (isBookReadOf r b) := ih (index.apply e) r b
      _ ≤ ((readRecords index r).countP (fun rec => decide (rec.book_id = b)) +
            (if isBookReadOf r b e = true then 1 else 0)) + es.countP (isBookReadOf r b) :=
          Nat.add_le_add_right hstep _
      _ = (readRecords index r).countP (fun rec => decide (rec.book_id = b)) +
            (e :: es).countP (isBookReadOf r b) := by
          rw [List.countP_cons]
          omega

/- A successful `collect` of `BooksByReader` preserves, record for record,
which entries carry a given book id. -/
theorem collectOption_books_count (index : IndexSet) (b : BookId) :
    ∀ (recs : List BookReadInfo) (bs : List Book),
    collectOption (recs.map (fun info =>
        (alookup index.books info.book_id).map (fun bi => Book.mk info.book_id bi))) = some bs →
    bs.countP (fun bk => decide (bk.id = b)) =
      recs.countP (fun rec => decide (rec.book_id = b)) := by
  intro recs
  induction recs with
  | nil =>
    intro bs h
    cases Option.some.inj h
    rfl
  | cons rec rest ih =>
    intro bs h
    rw [List.map_cons] at h
    cases hbi : alookup index.books rec.book_id with
    | none =>
      rw [hbi] at h
      cases h
    | some bi =>
      rw [hbi] at h
      simp only [Option.map_some', collectOption] at h
      cases hrest : collectOption (rest.map (fun info =>
          (alookup index.books info.book_id).map (fun bi => Book.mk info.book_id bi))) with
      | none =>
        rw [hrest] at h
        cases h
      | some bs' =>
        rw [hrest] at h
        simp only [Option.map_some'] at h
        cases Option.some.inj h
        rw [List.countP_cons, List.countP_cons, ih bs' hrest]

/- Empty-state facts used to seed the invariants. -/
theorem book_read_recorded_empty (r : ReaderId) (b : BookId) :
    WriteModel.empty.book_read_recorded r b = false :=
  rfl

/- `BooksByReader::execute` is the empty vector or a fully resolved
collection of the reader's records. -/
theorem booksByReader_cases (r : ReaderId) (index : IndexSet) :
    BooksByReader.execute r index = [] ∨
      ∃ read_books bs, alookup index.books_by_reader_id r = some read_books ∧
        collectOption (read_books.map (fun info =>
          (alookup index.books info.book_id).map (fun bi => Book.mk info.book_id bi))) =
            some bs ∧
        BooksByReader.execute r index = bs := by
  unfold BooksByReader.execute
  split
  · exact Or.inl rfl
  · rename_i read_books hread
    split
    · exact Or.inl rfl
    · rename_i bs hcol
      exact Or.inr ⟨read_books, bs, hread, hcol, rfl⟩

/-- C7: processing any command sequence from the empty state, at most one
`BookRead` event of a given (reader, book) pair is emitted; an
`AddReadBook` is accepted when no earlier `AddReadBook` of the same pair
occurred, and is rejected (emitting nothing) once the pair is recorded in
the write model; and `BooksByReader` over the read model built from the
emitted events lists that book at most once. -/
theorem c7_idempotent_reading :
    (∀ (cmds : List Command) (r : ReaderId) (b : BookId),
        (emittedEvents cmds).countP (isBookReadOf r b) ≤ 1) ∧
      (∀ (cmds : List Command) (info : BookReadInfo),
        (∀ info', Command.AddReadBook info' ∈ cmds →
          ¬(info'.reader_id = info.reader_id ∧ info'.book_id = info.book_id)) →
        accept (runState cmds).1 [(runState cmds).2] (Command.AddReadBook info) =
          some (Event.BookRead info.reader_id info)) ∧
      (∀ (wm : WriteModel) (fresh : UniqueId) (info : BookReadInfo),
        wm.book_read_recorded info.reader_id info.book_id = true →
        accept wm fresh (Command.AddReadBook info) = none) ∧
      ∀ (cmds : List Command) (r : ReaderId) (b : BookId),
        (BooksByReader.execute r (applyAll (emittedEvents cmds) IndexSet.empty)).countP
          (fun bk => decide (bk.id = b)) ≤ 1 := by
  refine ⟨?_, ?_, ?_, ?_⟩
  · intro cmds r b
    exact (c7_aux cmds (WriteModel.empty, 0) r b).2
  · intro cmds info hnone
    have hrec : (runState cmds).1.book_read_recorded info.reader_id info.book_id = false := by
      cases hb : (runState cmds).1.book_read_recorded info.reader_id info.book_id with
      | false => rfl
      | true =>
        rcases c7_state_aux cmds (WriteModel.empty, 0) info.reader_id info.book_id hb with
          habs | ⟨info', hin, hr, hbk⟩
        · rw [book_read_recorded_empty] at habs
          cases habs
        · exact absurd ⟨hr, hbk⟩ (hnone info' hin)
    rw [accept, if_neg (by rw [hrec]; exact Bool.false_ne_true)]
  · intro wm fresh info h
    rw [accept, if_pos h]
  · intro cmds r b
    have hevs : (emittedEvents cmds).countP (isBookReadOf r b) ≤ 1 :=
      (c7_aux cmds (WriteModel.empty, 0) r b).2
    have hrecs := c7_records_aux (emittedEvents cmds) IndexSet.empty r b
    have hrecs1 : ((readRecords (applyAll (emittedEvents cmds) IndexSet.empty) r).countP
        (fun rec => decide (rec.book_id = b))) ≤ 1 := by
      refine Nat.le_trans hrecs ?_
      have hempty : (readRecords IndexSet.empty r).countP
          (fun rec => decide (rec.book_id = b)) = 0 := rfl
      omega
    rcases booksByReader_cases r (applyAll (emittedEvents cmds) IndexSet.empty) with
      hnil | ⟨read_books, bs, hread, hcol, hexec⟩
    · rw [hnil]
      exact Nat.zero_le _
    · rw [hexec]
      rw [collectOption_books_count (applyAll (emittedEvents cmds) IndexSet.empty) b
        read_books bs hcol]
      have hrb : readRecords (applyAll (emittedEvents cmds) IndexSet.empty) r = read_books := by
        unfold readRecords
        rw [hread]
        rfl
      rw [hrb] at hrecs1
      exact hrecs1

/- Concrete C7 scenario: the same pair is read twice. -/
def c7_info : BookReadInfo := ⟨⟨[2]⟩, ⟨[3]⟩, none⟩

def c7_demo : List Command := [Command.AddReadBook c7_info, Command.AddReadBook c7_info]

/-- C7 witness: instantiates every conjunct of the claim theorem — the
duplicate-pair run emits at most one matching `BookRead`, the first
`AddReadBook` from the empty state is accepted, a repeat against a state
already recording the pair is rejected, and the reader's book list counts
the book at most once. -/
theorem c7_idempotent_reading_witness :
    (emittedEvents c7_demo).countP (isBookReadOf ⟨[2]⟩ ⟨[3]⟩) ≤ 1 ∧
      accept (runState []).1 [(runState []).2] (Command.AddReadBook c7_info) =
        some (Event.BookRead c7_info.reader_id c7_info) ∧
      accept (WriteModel.apply WriteModel.empty (Event.BookRead ⟨[2]⟩ c7_info)) [9]
        (Command.AddReadBook c7_info) = none ∧
      (BooksByReader.execute ⟨[2]⟩ (applyAll (emittedEvents c7_demo) IndexSet.empty)).countP
        (fun bk => decide (bk.id = ⟨[3]⟩)) ≤ 1 :=
  ⟨c7_idempotent_reading.1 c7_demo ⟨[2]⟩ ⟨[3]⟩,
    c7_idempotent_reading.2.1 [] c7_info
      (fun info' h => absurd h (List.not_mem_nil _)),
    c7_idempotent_reading.2.2.1 _ _ c7_info (by decide),
    c7_idempotent_reading.2.2.2 c7_demo ⟨[2]⟩ ⟨[3]⟩⟩

end CqRs
